import Mathlib

/-!
Verification of `VCF_functions.py` (VEP-annotated VCF / MAF readers).

Python strings are modelled as `List Char` (`PyStr`); the Python string
operations used by the source (`split` on a one-character separator,
`split(sep, 1)`, `startswith`, `endswith`, `replace(old, '')`, substring
membership `in`, `lower`) are given as executable Lean functions with the
same semantics.  Python dictionaries are modelled as association lists in
insertion order, with last-wins lookup (later bindings overwrite earlier
ones, as `dict` construction from repeated keys does).  Fallible Python
operations (`dict(...)` over non-pairs, indexing `[1]` into a too-short
split, `KeyError` on a missing key) are modelled by `Option`, `none`
standing for the raised exception.
-/

set_option maxHeartbeats 1000000
set_option linter.unusedVariables false

abbrev PyStr := List Char

namespace Py

/-- Python `s.startswith(pat)`: `startsWithP pat s`. -/
def startsWithP : PyStr → PyStr → Bool
  | [], _ => true
  | _ :: _, [] => false
  | p :: ps, c :: cs => (p == c) && startsWithP ps cs

/-- Python `s.endswith(pat)`: `endsWithP pat s`. -/
def endsWithP (pat s : PyStr) : Bool :=
  startsWithP pat.reverse s.reverse

/-- Python `c in s` for a single character `c`. -/
def containsC (c : Char) : PyStr → Bool
  | [] => false
  | x :: xs => (x == c) || containsC c xs

/-- Python `pat in s` for a string `pat` (substring occurrence). -/
def occursB (pat : PyStr) : PyStr → Bool
  | [] => startsWithP pat []
  | s@(_ :: cs) => startsWithP pat s || occursB pat cs

/-- Python `s.split(c)` for a one-character separator `c`: splits at every
occurrence, keeping empty pieces, so the result always has one more piece
than there are separator occurrences. -/
def splitC (c : Char) : PyStr → List PyStr
  | [] => [[]]
  | x :: xs =>
    match splitC c xs with
    | [] => [[]]
    | y :: ys => if x == c then [] :: y :: ys else (x :: y) :: ys

/-- Python `s.split(pat, 1)` when `pat` occurs: `some (before, after)` for
the first occurrence of `pat`; `none` when `pat` does not occur (in which
case the Python call returns the one-element list `[s]` and any `[1]`
index raises `IndexError`). -/
def findSplit (pat : PyStr) : PyStr → Option (PyStr × PyStr)
  | [] => if pat.isEmpty then some ([], []) else none
  | s@(c :: cs) =>
    if startsWithP pat s then some ([], s.drop pat.length)
    else (findSplit pat cs).map (fun p => (c :: p.1, p.2))

/-- Scanner for `removeAll`, structurally recursive on a fuel argument so
that it evaluates inside the kernel; one unit of fuel is spent per consumed
character, so fuel `s.length` always suffices. -/
def removeAllF (pat : PyStr) : Nat → PyStr → PyStr
  | 0, s => s
  | _ + 1, [] => []
  | fuel + 1, c :: cs =>
    if startsWithP pat (c :: cs) && !pat.isEmpty then
      removeAllF pat fuel ((c :: cs).drop pat.length)
    else
      c :: removeAllF pat fuel cs

/-- Python `s.replace(pat, '')` for a non-empty `pat`: removes every
left-to-right non-overlapping occurrence of `pat`. -/
def removeAll (pat s : PyStr) : PyStr := removeAllF pat s.length s

/-- Python `s.lower()` (ASCII is all the source ever compares). -/
def lowerP (s : PyStr) : PyStr := s.map Char.toLower

end Py

open Py

-- Basic lemmas about the string primitives.

theorem startsWithP_self_append (p r : PyStr) : startsWithP p (p ++ r) = true := by
  induction p with
  | nil => simp [startsWithP]
  | cons c cs ih => simp [startsWithP, ih]

theorem startsWithP_append_of_le (pat u v : PyStr) (h : pat.length ≤ u.length) :
    startsWithP pat (u ++ v) = startsWithP pat u := by
  induction pat generalizing u with
  | nil => simp [startsWithP]
  | cons p ps ih =>
    cases u with
    | nil => simp at h
    | cons c cs =>
      simp only [List.cons_append, startsWithP, List.append_eq]
      rw [ih cs (by simpa using Nat.le_of_succ_le_succ h)]

theorem startsWithP_length_le {pat s : PyStr} (h : startsWithP pat s = true) :
    pat.length ≤ s.length := by
  induction pat generalizing s with
  | nil => simp
  | cons p ps ih =>
    cases s with
    | nil => simp [startsWithP] at h
    | cons c cs =>
      simp only [startsWithP, Bool.and_eq_true] at h
      simpa using ih h.2

theorem splitC_ne_nil (c : Char) (s : PyStr) : splitC c s ≠ [] := by
  cases s with
  | nil => simp [splitC]
  | cons x xs =>
    simp only [splitC]
    cases h : splitC c xs with
    | nil => simp
    | cons y ys => by_cases hx : x == c <;> simp [hx]

theorem splitC_no_sep {c : Char} {s : PyStr} (h : containsC c s = false) :
    splitC c s = [s] := by
  induction s with
  | nil => simp [splitC]
  | cons x xs ih =>
    simp only [containsC, Bool.or_eq_false_iff] at h
    simp only [splitC, ih h.2, h.1]
    simp

theorem splitC_append_sep {c : Char} {a : PyStr} (rest : PyStr)
    (h : containsC c a = false) :
    splitC c (a ++ c :: rest) = a :: splitC c rest := by
  induction a with
  | nil =>
    simp only [List.nil_append, splitC]
    cases hs : splitC c rest with
    | nil => exact absurd hs (splitC_ne_nil c rest)
    | cons y ys => simp
  | cons x xs ih =>
    simp only [containsC, Bool.or_eq_false_iff] at h
    simp only [List.cons_append, splitC, List.append_eq]
    rw [ih h.2]
    simp [h.1]

theorem containsC_of_mem_sep (c : Char) (a rest : PyStr) :
    containsC c (a ++ c :: rest) = true := by
  induction a with
  | nil => simp [containsC]
  | cons x xs ih => simp [containsC, ih]

theorem splitC_length_ge_two {c : Char} {s : PyStr} (h : containsC c s = true) :
    2 ≤ (splitC c s).length := by
  induction s with
  | nil => simp [containsC] at h
  | cons x xs ih =>
    simp only [splitC]
    cases hs : splitC c xs with
    | nil => exact absurd hs (splitC_ne_nil c xs)
    | cons y ys =>
      simp only [containsC, Bool.or_eq_true] at h
      rcases h with h | h
      · simp [h]
      · have h2 := ih h
        rw [hs] at h2
        by_cases hx : x == c
        · simp [hx]
        · simp only [List.length_cons] at h2
          simp only [hx, Bool.false_eq_true, if_false, List.length_cons]
          omega


theorem findSplit_prepend_self (pat rest : PyStr) :
    findSplit pat (pat ++ rest) = some ([], rest) := by
  cases pat with
  | nil =>
    cases rest with
    | nil => simp [findSplit]
    | cons c cs => simp [findSplit, startsWithP]
  | cons p ps =>
    have hsw : startsWithP (p :: ps) ((p :: ps) ++ rest) = true :=
      startsWithP_self_append _ _
    simp only [List.cons_append] at hsw
    simp only [List.cons_append, findSplit, List.append_eq]
    rw [hsw]
    simp only [if_true]
    rw [show p :: (ps ++ rest) = (p :: ps) ++ rest from rfl]
    rw [List.drop_left]

theorem findSplit_extend {pat x : PyStr} (rest : PyStr)
    (h : findSplit pat (x ++ pat) = some (x, [])) :
    findSplit pat (x ++ pat ++ rest) = some (x, rest) := by
  induction x with
  | nil => simpa using findSplit_prepend_self pat rest
  | cons a x' ih =>
    by_cases hsw : startsWithP pat (a :: (x' ++ pat)) = true
    · simp only [List.cons_append, findSplit, List.append_eq] at h
      rw [hsw] at h
      simp at h
    · have hsw' : startsWithP pat (a :: (x' ++ (pat ++ rest))) = false := by
        have hlen : pat.length ≤ (a :: (x' ++ pat)).length := by
          simp only [List.length_cons, List.length_append]
          omega
        have heq := startsWithP_append_of_le pat (a :: (x' ++ pat)) rest hlen
        simp only [List.cons_append, List.append_assoc] at heq
        rw [heq]
        simpa using hsw
      simp only [List.cons_append, findSplit, List.append_eq] at h
      rw [if_neg (by simpa using hsw)] at h
      simp only [Option.map_eq_some'] at h
      obtain ⟨q, hq, hqe⟩ := h
      have hq1 : q.1 = x' := by
        have := congrArg Prod.fst hqe
        simpa using this
      have hq2 : q.2 = ([] : PyStr) := by
        have := congrArg Prod.snd hqe
        simpa using this
      have hqs : findSplit pat (x' ++ pat) = some (x', []) := by
        rw [hq, hq1.symm, hq2.symm]
      have hrec := ih hqs
      rw [List.append_assoc] at hrec
      simp only [List.append_assoc, List.cons_append, findSplit, List.append_eq]
      rw [if_neg (by simpa using hsw')]
      rw [hrec]
      rfl

theorem removeAllF_nil_str (pat : PyStr) (fuel : Nat) : removeAllF pat fuel [] = [] := by
  cases fuel with
  | zero => rfl
  | succ f => rfl

theorem removeAllF_trailing {pat : PyStr} (hne : pat ≠ []) :
    ∀ (ks : PyStr) (fuel : Nat), (ks ++ pat).length ≤ fuel →
      findSplit pat (ks ++ pat) = some (ks, []) →
      removeAllF pat fuel (ks ++ pat) = ks := by
  intro ks
  induction ks with
  | nil =>
    intro fuel hfuel h
    cases pat with
    | nil => exact absurd rfl hne
    | cons p ps =>
      simp only [List.nil_append] at hfuel ⊢
      cases fuel with
      | zero => simp at hfuel
      | succ f =>
        have hsw : startsWithP (p :: ps) (p :: ps) = true := by
          have := startsWithP_self_append (p :: ps) []
          simpa using this
        simp only [removeAllF, hsw, List.isEmpty_cons, Bool.not_false, Bool.and_self,
          if_true]
        rw [List.drop_length]
        exact removeAllF_nil_str _ _
  | cons a ks' ih =>
    intro fuel hfuel h
    by_cases hsw : startsWithP pat (a :: (ks' ++ pat)) = true
    · simp only [List.cons_append, findSplit, List.append_eq] at h
      rw [hsw] at h
      simp at h
    · simp only [List.cons_append, findSplit, List.append_eq] at h
      rw [if_neg (by simpa using hsw)] at h
      simp only [Option.map_eq_some'] at h
      obtain ⟨q, hq, hqe⟩ := h
      have hq1 : q.1 = ks' := by
        have := congrArg Prod.fst hqe
        simpa using this
      have hq2 : q.2 = ([] : PyStr) := by
        have := congrArg Prod.snd hqe
        simpa using this
      have hqs : findSplit pat (ks' ++ pat) = some (ks', []) := by
        rw [hq, hq1.symm, hq2.symm]
      cases fuel with
      | zero => simp at hfuel
      | succ f =>
        simp only [List.cons_append, removeAllF]
        rw [if_neg (by
          intro hc
          simp only [Bool.and_eq_true] at hc
          exact absurd hc.1 (by simpa using hsw))]
        have hlen : (ks' ++ pat).length ≤ f := by
          simp only [List.cons_append, List.length_cons] at hfuel
          omega
        rw [show ks'.append pat = ks' ++ pat from rfl]
        rw [ih f hlen hqs]

theorem removeAll_trailing {pat ks : PyStr} (hne : pat ≠ [])
    (h : findSplit pat (ks ++ pat) = some (ks, [])) :
    removeAll pat (ks ++ pat) = ks :=
  removeAllF_trailing hne ks (ks ++ pat).length (Nat.le_refl _) h

namespace VCF

-- String constants appearing in the source.

def sHashHash : PyStr := ("##").data
def sHash : PyStr := ("#").data
def sIndivPfx : PyStr := ("##INDIVIDUAL").data
def sIndivMark : PyStr := ("##INDIVIDUAL=<NAME=").data
def sSamplePfx : PyStr := ("##SAMPLE=<ID=TUMOR").data
def sNameMark : PyStr := ("NAME=").data
def sCsqPfx : PyStr := ("##INFO=<ID=CSQ").data
def sFormatMark : PyStr := ("Format: ").data
def sEndMark : PyStr := ("\">\n").data
def sGz : PyStr := (".gz").data
def sPASS : PyStr := ("PASS").data
def sFILTER : PyStr := ("FILTER").data
def sINFO : PyStr := ("INFO").data
def sCSQ : PyStr := ("CSQ").data
def sHashCHROM : PyStr := ("#CHROM").data
def sCHROM : PyStr := ("CHROM").data
def sEqNan : PyStr := ("=nan").data
def sConsequence : PyStr := ("Consequence").data
def sVariantClass : PyStr := ("VARIANT_CLASS").data
def sFeature : PyStr := ("Feature").data
def sAllEffects : PyStr := ("all_effects").data
def sTranscriptId : PyStr := ("Transcript_ID_all_effects").data
def sConsequenceAE : PyStr := ("Consequence_all_effects").data

/-- The hard-coded 11-key `all_effects` schema of `read_process_maf`. -/
def mafKeys : List PyStr :=
  [("Symbol_all_effects").data, ("Consequence_all_effects").data,
   ("HGVSp_Short_all_effects").data, ("Transcript_ID_all_effects").data,
   ("RefSeq_all_effects").data, ("HGVSc_all_effects").data,
   ("Impact_all_effects").data, ("Canonical_all_effects").data,
   ("Sift_all_effects").data, ("PolyPhen_all_effects").data,
   ("Strand_all_effects").data]

-- Input files.

/-- What is stored on disk: the logical text lines (without their trailing
newline), tagged with whether the file is gzip-compressed. -/
inductive Stored
  | plain (lines : List PyStr)
  | gz (lines : List PyStr)
deriving DecidableEq, Repr

structure PFile where
  path : PyStr
  stored : Stored
deriving DecidableEq, Repr

/-- `fn_open = gzip.open if file.endswith('.gz') else open`, then a text
read: yields the decoded lines when the chosen opener matches the on-disk
format; opening a plain file with `gzip.open` (or a gzip file as text)
raises, modelled as `none`.  `pd.read_csv` infers compression from the
same `.gz` extension, so it is modelled by the same function. -/
def fnOpen (f : PFile) : Option (List PyStr) :=
  match f.stored with
  | .gz l => if endsWithP sGz f.path then some l else none
  | .plain l => if endsWithP sGz f.path then none else some l

/-- Python file iteration yields each line with its trailing newline. -/
def withNL (lines : List PyStr) : List PyStr := lines.map (fun l => l ++ ['\n'])

-- Header scanners (`rows2skip`, `case_id`, `csqkeys`), over the lines as
-- Python iterates them (newline included).

/-- Line-level body of `rows2skip`: counts the leading lines that start
with `##` and stops at the first one that does not. -/
def rows2skipL (lines : List PyStr) : Nat :=
  (lines.takeWhile (fun l => startsWithP sHashHash l)).length

/-- Line-level body of `case_id`'s scanning loop, carrying the
`identifier` and `sample_id` accumulators (initially `''`).  The
`##SAMPLE=<ID=TUMOR` branch indexes `line.split(',')[1]`, which raises
`IndexError` (`none`) when the line has no comma. -/
def case_idL : List PyStr → PyStr → PyStr → Option (PyStr × PyStr)
  | [], identifier, sample_id => some (identifier, sample_id)
  | l :: ls, identifier, sample_id =>
    if startsWithP sHashHash l then
      if startsWithP sIndivPfx l then
        let identifier2 := removeAll sIndivMark ((splitC ',' l).headD [])
        if 0 < identifier2.length ∧ 0 < sample_id.length then some (identifier2, sample_id)
        else case_idL ls identifier2 sample_id
      else if startsWithP sSamplePfx l then
        match (splitC ',' l)[1]? with
        | none => none
        | some t =>
          let sample_id2 := removeAll sNameMark t
          if 0 < identifier.length ∧ 0 < sample_id2.length then some (identifier, sample_id2)
          else case_idL ls identifier sample_id2
      else case_idL ls identifier sample_id
    else some (identifier, sample_id)

/-- Line-level body of `csqkeys`.  The source initialises `csq_keys = ''`
and returns that empty string when no `##INFO=<ID=CSQ` line exists; the
value is only ever used as a sequence of keys (iterated / zipped), for
which the empty string is the empty sequence, modelled as `[]`.  On the
first matching line, `line.split('Format: ', 1)[1]` raises `IndexError`
(`none`) when the marker is absent. -/
def csqkeysL : List PyStr → Option (List PyStr)
  | [] => some []
  | l :: ls =>
    if startsWithP sCsqPfx l then
      match findSplit sFormatMark l with
      | none => none
      | some q => some (splitC '|' (removeAll sEndMark q.2))
    else csqkeysL ls

def rows2skip (f : PFile) : Option Nat :=
  (fnOpen f).map (fun ls => rows2skipL (withNL ls))

def case_id (f : PFile) : Option (PyStr × PyStr) :=
  (fnOpen f).bind (fun ls => case_idL (withNL ls) [] [])

def csqkeys (f : PFile) : Option (List PyStr) :=
  (fnOpen f).bind (fun ls => csqkeysL (withNL ls))

-- Python dictionaries.

/-- A decoded sub-record: Schema field name to string value, in insertion
order. -/
abbrev Rec := List (PyStr × PyStr)

/-- Dictionary lookup; the LAST binding of a key wins, as `dict`
construction from repeated keys keeps only the latest value. -/
def pyLookup {α : Type} (k : PyStr) : List (PyStr × α) → Option α
  | [] => none
  | kv :: rest =>
    match pyLookup k rest with
    | some v => some v
    | none => if kv.1 == k then some kv.2 else none

/-- Python `d.update({k: v})`: overwrites the binding in place, or appends
a new one. -/
def dictUpdate {α : Type} (d : List (PyStr × α)) (k : PyStr) (v : α) : List (PyStr × α) :=
  if d.any (fun kv => kv.1 == k) then
    d.map (fun kv => if kv.1 == k then (kv.1, v) else kv)
  else d ++ [(k, v)]

/-- Python `dict(zip(keys, vals))`: positional pairing, truncated to the
shorter of the two sequences. -/
def pyZipDict (keys vals : List PyStr) : Rec := keys.zip vals

/-- Python `dict(parts for parts in ...)`: every element must be an exact
pair, otherwise `dict` raises `ValueError` (`none`). -/
def dictOfPairs : List (List PyStr) → Option Rec
  | [] => some []
  | parts :: rest =>
    match parts with
    | [k, v] => (dictOfPairs rest).map (fun d => (k, v) :: d)
    | _ => none

/-- The value of one key of the decoded `INFO` dictionary: a raw string,
or (for `CSQ` after `update_value`) a list of decoded sub-records. -/
inductive InfoVal
  | s (v : PyStr)
  | recs (l : List Rec)
deriving DecidableEq, Repr

abbrev InfoDict := List (PyStr × InfoVal)

-- Embedded-field decoding.

/-- `[i + '=nan' if '=' not in i else i for i in x.split(';')]`: pad
key-only tokens with the `nan` sentinel. -/
def padTokens (x : PyStr) : List PyStr :=
  (splitC ';' x).map (fun i => if containsC '=' i then i else i ++ sEqNan)

/-- `dict(item.split("=") for item in x)` over the padded tokens; a token
splitting into more than two pieces makes `dict` raise `ValueError`. -/
def infoOuterDict (x : PyStr) : Option Rec :=
  dictOfPairs ((padTokens x).map (fun item => splitC '=' item))

/-- The two `df['INFO'].apply` steps of `read_process_vcf` that decode the
raw `INFO` string into a dictionary (values still raw strings). -/
def decode_info (x : PyStr) : Option InfoDict :=
  (infoOuterDict x).map (fun d => d.map (fun kv => (kv.1, InfoVal.s kv.2)))

/-- One decoded CSQ sub-entry: `dict(zip(csq_keys, i.split('|')))`. -/
def csq_sub (csq_keys : List PyStr) (entry : PyStr) : Rec :=
  pyZipDict csq_keys (splitC '|' entry)

/-- `update_value`: replaces the raw string under `key` with the decoded
list of CSQ sub-records.  A missing key (`KeyError`) or an already-decoded
value (`AttributeError` on `.split`) raises, modelled `none`. -/
def update_value (dict_a : InfoDict) (key : PyStr) (csq_keys : List PyStr) : Option InfoDict :=
  match pyLookup key dict_a with
  | some (.s raw) =>
      some (dictUpdate dict_a key (.recs ((splitC ',' raw).map (csq_sub csq_keys))))
  | _ => none

/-- One decoded `all_effects` sub-entry of `read_process_maf`:
`dict(zip(keys, i.split(',')))`. -/
def maf_sub (entry : PyStr) : Rec := pyZipDict mafKeys (splitC ',' entry)

/-- `[dict(zip(keys, i.split(','))) for i in x.split(';')]`. -/
def decode_all_effects (x : PyStr) : List Rec :=
  (splitC ';' x).map maf_sub

-- Variant filtering.

/-- `filterMO p l`: Python list comprehension `[x for x in l if p x]` where
evaluating the predicate may raise (`none`). -/
def filterMO {α : Type} (p : α → Option Bool) : List α → Option (List α)
  | [] => some []
  | x :: xs =>
    match p x with
    | none => none
    | some b => (filterMO p xs).map (fun ys => if b then x :: ys else ys)

/-- The comprehension guard of `filter_variants`:
`variant in i['Consequence'] and variant_class in i['VARIANT_CLASS']`,
with Python's left-to-right short-circuit (the second lookup is only
reached when the first test passes); a missing key raises `KeyError`. -/
def vcfKeep (variant variant_class : PyStr) (r : Rec) : Option Bool :=
  match pyLookup sConsequence r with
  | none => none
  | some c =>
    if occursB variant c then
      match pyLookup sVariantClass r with
      | none => none
      | some vc => some (occursB variant_class vc)
    else some false

/-- `filter_variants`: overwrites the `'CSQ'` entry with the filtered list
(possibly empty — the VCF path never substitutes `NaN` here). -/
def filter_variants (dict_a : InfoDict) (variant variant_class : PyStr) : Option InfoDict :=
  match pyLookup sCSQ dict_a with
  | some (.recs l) =>
      (filterMO (vcfKeep variant variant_class) l).map
        (fun l2 => dictUpdate dict_a sCSQ (.recs l2))
  | _ => none

/-- `filter_variants_maf`: the filtered list when it is non-empty,
otherwise `np.nan` (the inner `none`); the outer `none` is a raised
`KeyError`. -/
def filter_variants_maf (list_of_dicts : List Rec) (variant : PyStr) :
    Option (Option (List Rec)) :=
  (filterMO (fun dic => (pyLookup sConsequenceAE dic).map (fun c => occursB variant c))
      list_of_dicts).map
    (fun l2 => if 0 < l2.length then some l2 else none)

-- Transcript resolution.

/-- The shared loop shape of `find_variants` and `find_variants_maf`:
`variants = ''; for i in l: if i[idKey] in id_list: variants = i`,
then return `variants` if `len(variants) > 0` else `np.nan` (inner
`none`); a record without the key raises `KeyError` (outer `none`). -/
def fv_loop (idKey : PyStr) (id_list : List PyStr) : List Rec → Option Rec → Option (Option Rec)
  | [], acc =>
    some (match acc with
          | some r => if 0 < r.length then some r else none
          | none => none)
  | r :: rs, acc =>
    match pyLookup idKey r with
    | none => none
    | some v => fv_loop idKey id_list rs (if id_list.contains v then some r else acc)

/-- `find_variants`: resolves on the `'Feature'` key of the sub-records
stored under `'CSQ'`.  When `'CSQ'` still holds a raw string the Python
loop iterates its characters and `i['Feature']` raises `TypeError`,
except for the empty string whose loop body never runs. -/
def find_variants (dict_a : InfoDict) (id_list : List PyStr) : Option (Option Rec) :=
  match pyLookup sCSQ dict_a with
  | some (.recs l) => fv_loop sFeature id_list l none
  | some (.s raw) => if raw.isEmpty then some none else none
  | none => none

/-- `find_variants_maf`: same loop on the `'Transcript_ID_all_effects'`
key of the `all_effects` sub-records. -/
def find_variants_maf (list_of_dicts : List Rec) (id_list : List PyStr) : Option (Option Rec) :=
  fv_loop sTranscriptId id_list list_of_dicts none

-- Tabular reading and the two pipelines.

structure Table where
  header : List PyStr
  rows : List (List PyStr)
deriving DecidableEq, Repr

/-- `pd.read_csv(..., sep='\t', skiprows=skip)`: after skipping, the first
line is the header and the rest the body; nothing left raises
`EmptyDataError` (`none`).  Cells are the tab-separated fields. -/
def parseTable (lines : List PyStr) (skip : Nat) : Option Table :=
  match lines.drop skip with
  | [] => none
  | h :: body => some ⟨splitC '\t' h, body.map (fun r => splitC '\t' r)⟩

/-- `.rename({'#CHROM': 'CHROM'}, axis=1)`. -/
def renameHeader (hd : List PyStr) : List PyStr :=
  hd.map (fun c => if c == sHashCHROM then sCHROM else c)

/-- Column access `row[name]` through the header; a missing column is a
`KeyError` (`none`). -/
def getCell (hd : List PyStr) (row : List PyStr) (name : PyStr) : Option PyStr :=
  (hd.findIdx? (fun c => c == name)).bind (fun i => row[i]?)

/-- `mapMO g l`: Python `l.apply(g)` / comprehension where `g` may raise. -/
def mapMO {α β : Type} (g : α → Option β) : List α → Option (List β)
  | [] => some []
  | x :: xs =>
    match g x with
    | none => none
    | some y => (mapMO g xs).map (fun ys => y :: ys)

/-- A row of the VCF output table when no extension happens: the original
columns except `INFO` (name-value, in header order) plus the decoded
dictionary now held by the `INFO` column. -/
structure VRow where
  cols : List (PyStr × PyStr)
  info : InfoDict
deriving DecidableEq, Repr

/-- A row of the extended VCF output: as `VRow`, with the resolved
sub-record's pairs flattened in as additional columns. -/
structure VRowExt where
  cols : List (PyStr × PyStr)
  info : InfoDict
  sel : Rec
deriving DecidableEq, Repr

inductive VcfOut
  | plain (l : List VRow)
  | ext (l : List VRowExt)
deriving DecidableEq, Repr

inductive VcfResult
  | table (t : VcfOut)
  | withId (t : VcfOut) (identifier sample_id : PyStr)
deriving DecidableEq, Repr

def VcfResult.out : VcfResult → VcfOut
  | .table t => t
  | .withId t _ _ => t

def nonInfoCols (hd row : List PyStr) : List (PyStr × PyStr) :=
  (hd.zip row).filter (fun kv => kv.1 != sINFO)

/-- The table-level filter
`(df['FILTER'] == 'PASS') & (df.INFO.str.contains(variant, case=False))`
(the patterns passed in practice contain no regex metacharacters, so
`str.contains` is case-insensitive substring search). -/
def vcf_row_pred (hd : List PyStr) (variant : PyStr) (row : List PyStr) : Option Bool :=
  (getCell hd row sFILTER).bind (fun fv =>
    (getCell hd row sINFO).map (fun iv =>
      fv == sPASS && occursB (lowerP variant) (lowerP iv)))

/-- The three `df['INFO'].apply` decoding stages composed on one raw INFO
string: outer split, CSQ decode, variant filter. -/
def vcf_decode_info (ck : List PyStr) (variant variant_class : PyStr) (raw : PyStr) :
    Option InfoDict :=
  (decode_info raw).bind (fun d =>
    (update_value d sCSQ ck).bind (fun d2 =>
      filter_variants d2 variant variant_class))

def vcf_decode_row (hd ck : List PyStr) (variant variant_class : PyStr)
    (row : List PyStr) : Option VRow :=
  (getCell hd row sINFO).bind (fun raw =>
    (vcf_decode_info ck variant variant_class raw).map
      (fun d => ⟨nonInfoCols hd row, d⟩))

/-- `read_process_vcf` on the decoded text lines of the file (the source
reopens the same file for `rows2skip`, `csqkeys`, `pd.read_csv` and
`case_id`; all four see these same lines).  The pandas stages run column
by column over all rows while this model runs row by row, but a raised
exception anywhere makes both deliver no result, and otherwise the
outputs agree row for row. -/
def vcfMain (lines : List PyStr) (variant variant_class : PyStr)
    (id_list : List PyStr) (return_case_id : Bool) : Option VcfResult :=
  (csqkeysL (withNL lines)).bind (fun ck =>
  (parseTable lines (rows2skipL (withNL lines))).bind (fun tbl =>
  (filterMO (vcf_row_pred (renameHeader tbl.header) variant) tbl.rows).bind (fun rows1 =>
  (mapMO (vcf_decode_row (renameHeader tbl.header) ck variant variant_class) rows1).bind
    (fun rows2 =>
  (if 0 < id_list.length then
     (mapMO (fun r => (find_variants r.info id_list).map (fun sel => (r, sel))) rows2).map
       (fun rs => VcfOut.ext (rs.filterMap
         (fun rsel => rsel.2.map (fun s => VRowExt.mk rsel.1.cols rsel.1.info s))))
   else some (VcfOut.plain rows2)).bind (fun out =>
  if return_case_id then
    (case_idL (withNL lines) [] []).map (fun ids => VcfResult.withId out ids.1 ids.2)
  else some (VcfResult.table out))))))

def read_process_vcf (f : PFile) (variant variant_class : PyStr)
    (id_list : List PyStr) (return_case_id : Bool) : Option VcfResult :=
  (fnOpen f).bind (fun lines => vcfMain lines variant variant_class id_list return_case_id)

/-- A row of the MAF output table: the original columns except
`all_effects` plus the decoded-and-filtered sub-record list now held by
the `all_effects` column. -/
structure MRow where
  cols : List (PyStr × PyStr)
  effects : List Rec
deriving DecidableEq, Repr

structure MRowExt where
  cols : List (PyStr × PyStr)
  effects : List Rec
  sel : Rec
deriving DecidableEq, Repr

inductive MafOut
  | plain (l : List MRow)
  | ext (l : List MRowExt)
deriving DecidableEq, Repr

def nonAECols (hd row : List PyStr) : List (PyStr × PyStr) :=
  (hd.zip row).filter (fun kv => kv.1 != sAllEffects)

/-- Decode and filter the `all_effects` cell of one MAF row; `some none`
is the `NaN` that `dropna` later removes. -/
def maf_filter_row (hd : List PyStr) (consequence : PyStr) (row : List PyStr) :
    Option (Option MRow) :=
  (getCell hd row sAllEffects).bind (fun raw =>
    (filter_variants_maf (decode_all_effects raw) consequence).map
      (fun fo => fo.map (fun l => MRow.mk (nonAECols hd row) l)))

/-- `read_process_maf` on the decoded text lines.  `comment='#'` is
modelled as dropping the `#`-commented header lines; `variant` and
`variant_class` are accepted but never used (the line that would use them
is commented out in the source). -/
def mafMain (lines : List PyStr) (variant consequence variant_class : PyStr)
    (id_list : List PyStr) : Option MafOut :=
  (parseTable (lines.filter (fun l => !startsWithP sHash l)) 0).bind (fun tbl =>
  (mapMO (maf_filter_row tbl.header consequence) tbl.rows).bind (fun rows2 =>
    if 0 < id_list.length then
      (mapMO (fun r => (find_variants_maf r.effects id_list).map (fun sel => (r, sel)))
          (rows2.filterMap id)).map
        (fun rs => MafOut.ext (rs.filterMap
          (fun rsel => rsel.2.map (fun s => MRowExt.mk rsel.1.cols rsel.1.effects s))))
    else some (MafOut.plain (rows2.filterMap id))))

def read_process_maf (f : PFile) (variant consequence variant_class : PyStr)
    (id_list : List PyStr) : Option MafOut :=
  (fnOpen f).bind (fun lines => mafMain lines variant consequence variant_class id_list)

end VCF

open VCF

-- Lemmas about the monadic list combinators and the dictionary model.

theorem mapMO_length {α β : Type} (g : α → Option β) :
    ∀ (l : List α) (l2 : List β), mapMO g l = some l2 → l2.length = l.length := by
  intro l
  induction l with
  | nil =>
    intro l2 h
    simp only [mapMO, Option.some.injEq] at h
    simp [← h]
  | cons x xs ih =>
    intro l2 h
    simp only [mapMO] at h
    cases hg : g x with
    | none => rw [hg] at h; simp at h
    | some y =>
      rw [hg] at h
      simp only [Option.map_eq_some'] at h
      obtain ⟨ys, hys, hl2⟩ := h
      simp [← hl2, ih ys hys]

theorem mapMO_get {α β : Type} (g : α → Option β) :
    ∀ (l : List α) (l2 : List β), mapMO g l = some l2 →
      ∀ (i : Nat) (h1 : i < l.length) (h2 : i < l2.length),
        g (l.get ⟨i, h1⟩) = some (l2.get ⟨i, h2⟩) := by
  intro l
  induction l with
  | nil => intro l2 h i h1 h2; simp at h1
  | cons x xs ih =>
    intro l2 h i h1 h2
    simp only [mapMO] at h
    cases hg : g x with
    | none => rw [hg] at h; simp at h
    | some y =>
      rw [hg] at h
      simp only [Option.map_eq_some'] at h
      obtain ⟨ys, hys, hl2⟩ := h
      subst hl2
      cases i with
      | zero => simpa using hg
      | succ j =>
        simp only [List.get_cons_succ]
        exact ih ys hys j (by simpa using h1) (by simpa using h2)

theorem mapMO_mem {α β : Type} (g : α → Option β) :
    ∀ (l : List α) (l2 : List β), mapMO g l = some l2 →
      ∀ y ∈ l2, ∃ x ∈ l, g x = some y := by
  intro l
  induction l with
  | nil =>
    intro l2 h y hy
    simp only [mapMO, Option.some.injEq] at h
    subst h
    simp at hy
  | cons x xs ih =>
    intro l2 h y hy
    simp only [mapMO] at h
    cases hg : g x with
    | none => rw [hg] at h; simp at h
    | some z =>
      rw [hg] at h
      simp only [Option.map_eq_some'] at h
      obtain ⟨ys, hys, hl2⟩ := h
      subst hl2
      rcases List.mem_cons.mp hy with hy | hy
      · exact ⟨x, List.mem_cons_self x xs, by rw [hg, hy]⟩
      · obtain ⟨x', hx', hgx'⟩ := ih ys hys y hy
        exact ⟨x', List.mem_cons_of_mem _ hx', hgx'⟩

theorem pyLookup_append {α : Type} (k : PyStr) (d1 d2 : List (PyStr × α)) :
    pyLookup k (d1 ++ d2) =
      match pyLookup k d2 with
      | some v => some v
      | none => pyLookup k d1 := by
  induction d1 with
  | nil =>
    simp only [List.nil_append, pyLookup]
    cases pyLookup k d2 <;> rfl
  | cons kv rest ih =>
    simp only [List.cons_append, pyLookup, List.append_eq]
    rw [ih]
    cases pyLookup k d2 with
    | none => rfl
    | some v => rfl

theorem pyLookup_dictUpdate {α : Type} (d : List (PyStr × α)) (k : PyStr) (v : α) :
    pyLookup k (dictUpdate d k v) = some v := by
  unfold dictUpdate
  by_cases hany : d.any (fun kv => kv.1 == k) = true
  · rw [if_pos hany]
    have main : ∀ (d' : List (PyStr × α)),
        pyLookup k (d'.map (fun kv => if kv.1 == k then (kv.1, v) else kv)) =
          if d'.any (fun kv => kv.1 == k) then some v else none := by
      intro d'
      induction d' with
      | nil => simp [pyLookup]
      | cons kv rest ih =>
        simp only [List.map_cons, pyLookup, ih, List.any_cons]
        by_cases hrest : rest.any (fun kv => kv.1 == k) = true
        · simp [hrest]
        · simp only [Bool.not_eq_true] at hrest
          by_cases hk : kv.1 == k
          · simp [hrest, hk]
          · simp [hrest, hk]
    rw [main d, if_pos hany]
  · rw [if_neg hany]
    rw [pyLookup_append]
    simp [pyLookup]

theorem pyLookup_isSome_ne_nil {α : Type} {k : PyStr} {r : List (PyStr × α)}
    (h : (pyLookup k r).isSome = true) : 0 < r.length := by
  cases r with
  | nil => simp [pyLookup] at h
  | cons kv rest => simp


-- Specification-side helper: the last element satisfying a predicate.

def lastThat {α : Type} (p : α → Bool) : List α → Option α
  | [] => none
  | x :: xs =>
    match lastThat p xs with
    | some y => some y
    | none => if p x then some x else none

/-- The membership test run by the resolver loop on one sub-record. -/
def idMatches (idKey : PyStr) (id_list : List PyStr) (r : Rec) : Bool :=
  ((pyLookup idKey r).map (fun v => id_list.contains v)).getD false

theorem fv_loop_spec (idKey : PyStr) (id_list : List PyStr) :
    ∀ (l : List Rec), (∀ r ∈ l, (pyLookup idKey r).isSome = true) →
      ∀ (acc : Option Rec),
        fv_loop idKey id_list l acc =
          some (match lastThat (idMatches idKey id_list) l with
                | some y => some y
                | none =>
                  match acc with
                  | some r => if 0 < r.length then some r else none
                  | none => none) := by
  intro l
  induction l with
  | nil => intro h acc; rfl
  | cons r rs ih =>
    intro h acc
    have hr : (pyLookup idKey r).isSome = true := h r (List.mem_cons_self r rs)
    cases hv : pyLookup idKey r with
    | none => rw [hv] at hr; simp at hr
    | some v =>
      have hrs : ∀ x ∈ rs, (pyLookup idKey x).isSome = true := by
        intro x hx
        exact h x (List.mem_cons_of_mem _ hx)
      have hrlen : 0 < r.length := pyLookup_isSome_ne_nil hr
      simp only [fv_loop, hv]
      rw [ih hrs]
      simp only [lastThat, idMatches, hv, Option.map_some', Option.getD_some]
      cases hlast : lastThat (idMatches idKey id_list) rs with
      | some y => simp
      | none =>
        by_cases hc : v ∈ id_list
        · simp [hc, hrlen]
        · simp [hc]

theorem zip_map_fst (l1 l2 : List PyStr) :
    (l1.zip l2).map Prod.fst = l1.take l2.length := by
  induction l1 generalizing l2 with
  | nil => simp
  | cons a as ih =>
    cases l2 with
    | nil => simp
    | cons b bs => simp [ih]

theorem zip_map_snd (l1 l2 : List PyStr) :
    (l1.zip l2).map Prod.snd = l2.take l1.length := by
  induction l1 generalizing l2 with
  | nil => simp
  | cons a as ih =>
    cases l2 with
    | nil => simp
    | cons b bs => simp [ih]

theorem pyLookup_zip_isSome (k : PyStr) :
    ∀ (l1 l2 : List PyStr), k ∈ l1 → l1.length ≤ l2.length →
      (pyLookup k (l1.zip l2)).isSome = true := by
  intro l1
  induction l1 with
  | nil => intro l2 hk; simp at hk
  | cons a as ih =>
    intro l2 hk hlen
    cases l2 with
    | nil => simp at hlen
    | cons b bs =>
      simp only [List.zip_cons_cons, pyLookup]
      rcases List.mem_cons.mp hk with hk | hk
      · cases hrest : pyLookup k (List.zipWith Prod.mk as bs) with
        | some v => simp
        | none =>
          subst hk
          simp
      · have h2 : (pyLookup k (List.zipWith Prod.mk as bs)).isSome = true :=
          ih bs hk (by simpa using Nat.le_of_succ_le_succ hlen)
        cases hrest : pyLookup k (List.zipWith Prod.mk as bs) with
        | some v => simp
        | none => rw [hrest] at h2; simp at h2

theorem containsC_append (c : Char) (a b : PyStr) :
    containsC c (a ++ b) = (containsC c a || containsC c b) := by
  induction a with
  | nil => simp [containsC]
  | cons x xs ih => simp [containsC, ih, Bool.or_assoc]

/-- C10: `read_process_maf` never reads its `variant` and `variant_class`
parameters (the subsetting line that would use them is commented out), so
its output depends only on the file, `consequence` and `id_list`. -/
theorem C10_maf_ignores_variant_args (f : PFile) (consequence : PyStr)
    (id_list : List PyStr) (v1 v2 vc1 vc2 : PyStr) :
    read_process_maf f v1 consequence vc1 id_list =
      read_process_maf f v2 consequence vc2 id_list := rfl

/-- C9: a gzip-compressed file (path ending `.gz`) and an uncompressed
file with the same decompressed text are processed identically by
`read_process_vcf`, for every choice of the remaining arguments,
including the returned case identifiers when requested. -/
theorem C9_gzip_transparent (p1 p2 : PyStr) (L : List PyStr)
    (variant variant_class : PyStr) (id_list : List PyStr) (rcid : Bool)
    (h1 : endsWithP sGz p1 = true) (h2 : endsWithP sGz p2 = false) :
    read_process_vcf ⟨p1, .gz L⟩ variant variant_class id_list rcid =
      read_process_vcf ⟨p2, .plain L⟩ variant variant_class id_list rcid := by
  simp only [read_process_vcf, fnOpen, h1, h2]
  simp

theorem C9_gzip_transparent_witness :
    read_process_vcf ⟨("a.vcf.gz").data, .gz [("x").data]⟩ (("m").data) (("SNP").data) [] true =
      read_process_vcf ⟨("a.vcf").data, .plain [("x").data]⟩ (("m").data) (("SNP").data) [] true :=
  C9_gzip_transparent _ _ _ _ _ _ _ (by decide) (by decide)

/-- C1: `find_variants` (key `Feature`) and `find_variants_maf` (key
`Transcript_ID_all_effects`) both return the LAST sub-record in iteration
order whose identifier field is a member of the identifier set, and the
absent value `NaN` (`none`) when no sub-record matches or the sequence is
empty; in particular, on sub-records carrying ids `T1, T2, T1` (the first
and third distinguishable by a tag) with identifier set `{T1}`, the
resolver returns the third sub-record, not the first. -/
theorem C1_resolver_last_wins :
    (∀ (dict_a : InfoDict) (l : List Rec) (id_list : List PyStr),
        pyLookup sCSQ dict_a = some (.recs l) →
        (∀ r ∈ l, (pyLookup sFeature r).isSome = true) →
        find_variants dict_a id_list = some (lastThat (idMatches sFeature id_list) l))
    ∧ (∀ (l : List Rec) (id_list : List PyStr),
        (∀ r ∈ l, (pyLookup sTranscriptId r).isSome = true) →
        find_variants_maf l id_list = some (lastThat (idMatches sTranscriptId id_list) l))
    ∧ find_variants_maf
        [[(sTranscriptId, ("T1").data), (("tag").data, ("first").data)],
         [(sTranscriptId, ("T2").data)],
         [(sTranscriptId, ("T1").data), (("tag").data, ("third").data)]]
        [("T1").data]
      = some (some [(sTranscriptId, ("T1").data), (("tag").data, ("third").data)]) := by
  have loop : ∀ (key : PyStr) (l : List Rec) (id_list : List PyStr),
      (∀ r ∈ l, (pyLookup key r).isSome = true) →
      fv_loop key id_list l none = some (lastThat (idMatches key id_list) l) := by
    intro key l id_list hk
    rw [fv_loop_spec key id_list l hk none]
    cases lastThat (idMatches key id_list) l with
    | some y => rfl
    | none => rfl
  refine ⟨?_, ?_, ?_⟩
  · intro dict_a l id_list hcsq hk
    unfold find_variants
    rw [hcsq]
    exact loop sFeature l id_list hk
  · intro l id_list hk
    unfold find_variants_maf
    exact loop sTranscriptId l id_list hk
  · decide

theorem C1_resolver_last_wins_witness :
    find_variants [(sCSQ, InfoVal.recs [[(sFeature, ("T2").data)]])] [("T1").data]
        = some (lastThat (idMatches sFeature [("T1").data]) [[(sFeature, ("T2").data)]])
    ∧ find_variants_maf [[(sTranscriptId, ("T9").data)]] [("T9").data]
        = some (lastThat (idMatches sTranscriptId [("T9").data]) [[(sTranscriptId, ("T9").data)]]) :=
  ⟨C1_resolver_last_wins.1 _ _ _ (by decide) (by decide),
   C1_resolver_last_wins.2.1 _ _ (by decide)⟩

-- Supporting lemma for C3/C4.

theorem dictOfPairs_isSome (ps : List (List PyStr)) (h : ∀ p ∈ ps, p.length = 2) :
    (dictOfPairs ps).isSome = true := by
  induction ps with
  | nil => rfl
  | cons p rest ih =>
    have hp : p.length = 2 := h p (List.mem_cons_self p rest)
    obtain ⟨k, v, hkv⟩ : ∃ k v, p = [k, v] := by
      cases p with
      | nil => simp at hp
      | cons a t =>
        cases t with
        | nil => simp at hp
        | cons b t2 =>
          cases t2 with
          | nil => exact ⟨a, b, rfl⟩
          | cons c t3 => simp at hp
    subst hkv
    have hrest := ih (fun q hq => h q (List.mem_cons_of_mem _ hq))
    simp only [dictOfPairs]
    cases hdr : dictOfPairs rest with
    | none => rw [hdr] at hrest; simp at hrest
    | some d => simp

/-- C2 (amended): a decoded sub-entry zips the schema positionally against
the split values, truncating to the shorter side: values beyond the
schema length are dropped, schema keys beyond the number of values are
OMITTED from the record (not bound to a sentinel), and every schema key
is defined whenever the sub-entry supplies at least as many values as the
schema has keys.  Both the VCF CSQ decoder and the MAF `all_effects`
decoder behave this way. -/
theorem C2_sub_record_shape (keys : List PyStr) (entry mafEntry : PyStr) :
    ((csq_sub keys entry).map Prod.fst = keys.take (splitC '|' entry).length
      ∧ (csq_sub keys entry).map Prod.snd = (splitC '|' entry).take keys.length
      ∧ (keys.length ≤ (splitC '|' entry).length →
          ∀ k ∈ keys, (pyLookup k (csq_sub keys entry)).isSome = true))
    ∧ ((maf_sub mafEntry).map Prod.fst = mafKeys.take (splitC ',' mafEntry).length
      ∧ (maf_sub mafEntry).map Prod.snd = (splitC ',' mafEntry).take mafKeys.length
      ∧ (mafKeys.length ≤ (splitC ',' mafEntry).length →
          ∀ k ∈ mafKeys, (pyLookup k (maf_sub mafEntry)).isSome = true)) := by
  constructor
  · refine ⟨zip_map_fst _ _, zip_map_snd _ _, ?_⟩
    intro hlen k hk
    exact pyLookup_zip_isSome k keys (splitC '|' entry) hk hlen
  · refine ⟨zip_map_fst _ _, zip_map_snd _ _, ?_⟩
    intro hlen k hk
    exact pyLookup_zip_isSome k mafKeys (splitC ',' mafEntry) hk hlen

/-- C2, counterexample to the claim as stated: with schema `[a, b, c]`
and the one-value sub-entry `1`, the decoded record leaves key `b`
undefined instead of binding it to the empty sentinel. -/
theorem C2_sub_record_counterexample :
    pyLookup (("b").data) (csq_sub [("a").data, ("b").data, ("c").data] (("1").data)) = none := by
  decide

theorem C2_sub_record_witness :
    (pyLookup (("b").data)
        (csq_sub [("a").data, ("b").data, ("c").data] (("1|2|3").data))).isSome = true :=
  (C2_sub_record_shape [("a").data, ("b").data, ("c").data] (("1|2|3").data)
      (("x").data)).1.2.2 (by decide) (("b").data) (by decide)

/-- C3 (amended): decoding is total wherever the delimiter structure
admits it — the MAF `all_effects` decode and the CSQ sub-entry decode
never fail and yield one record per sub-entry, and the VCF outer
`key=value` decode succeeds (padding tokens that lack `=`) whenever no
token carries more than one `=`; a token with an extra `=` (e.g. a value
containing `=`) makes the `dict(...)` call raise `ValueError` instead of
producing a padded mapping (see the counterexample). -/
theorem C3_decode_totality :
    (∀ x : PyStr, (∀ t ∈ splitC ';' x, (splitC '=' t).length ≤ 2) →
        (decode_info x).isSome = true)
    ∧ (∀ x : PyStr, (decode_all_effects x).length = (splitC ';' x).length)
    ∧ (∀ (ck : List PyStr) (raw : PyStr),
        ((splitC ',' raw).map (csq_sub ck)).length = (splitC ',' raw).length) := by
  refine ⟨?_, ?_, ?_⟩
  · intro x hx
    have hparts : ∀ p ∈ (padTokens x).map (fun item => splitC '=' item), p.length = 2 := by
      intro p hp
      simp only [padTokens, List.map_map, List.mem_map, Function.comp] at hp
      obtain ⟨t, ht, hpt⟩ := hp
      subst hpt
      by_cases hc : containsC '=' t = true
      · simp only [hc, if_true]
        have hge := splitC_length_ge_two hc
        have hle := hx t ht
        omega
      · simp only [Bool.not_eq_true] at hc
        simp only [hc, Bool.false_eq_true, if_false]
        rw [show sEqNan = '=' :: ("nan").data from rfl]
        rw [splitC_append_sep _ hc, splitC_no_sep (by decide)]
        rfl
    have := dictOfPairs_isSome _ hparts
    simp only [decode_info, infoOuterDict]
    cases hdp : dictOfPairs ((padTokens x).map (fun item => splitC '=' item)) with
    | none => rw [hdp] at this; simp at this
    | some d => simp
  · intro x
    simp [decode_all_effects]
  · intro ck raw
    simp

/-- C3, counterexample to the claim as stated: the VCF outer decode is
not total — a token whose value contains an extra `=` raises `ValueError`
(`none`) rather than producing a short or padded mapping. -/
theorem C3_decode_counterexample : decode_info (("k=v=w").data) = none := by decide

theorem C3_decode_witness : (decode_info (("DP=5;IN_PON").data)).isSome = true :=
  C3_decode_totality.1 _ (by decide)

/-- C4: on an embedded INFO field of the shape `k1=v1;k2;k3=v3` (keys and
values free of the `;` and `=` delimiters), the outer decode yields
exactly the mapping `{k1: v1, k2: nan, k3: v3}` — the token without `=`
is bound to the `nan` sentinel. -/
theorem C4_outer_decode (k1 v1 k2 k3 v3 : PyStr)
    (h1 : containsC ';' k1 = false) (h2 : containsC '=' k1 = false)
    (h3 : containsC ';' v1 = false) (h4 : containsC '=' v1 = false)
    (h5 : containsC ';' k2 = false) (h6 : containsC '=' k2 = false)
    (h7 : containsC ';' k3 = false) (h8 : containsC '=' k3 = false)
    (h9 : containsC ';' v3 = false) (h10 : containsC '=' v3 = false) :
    decode_info (k1 ++ '=' :: v1 ++ ';' :: k2 ++ ';' :: k3 ++ '=' :: v3) =
      some [(k1, InfoVal.s v1), (k2, InfoVal.s (("nan").data)), (k3, InfoVal.s v3)] := by
  have e1 : containsC ';' (k1 ++ '=' :: v1) = false := by
    rw [containsC_append, h1]
    simp only [containsC, h3]
    decide
  have e3 : containsC ';' (k3 ++ '=' :: v3) = false := by
    rw [containsC_append, h7]
    simp only [containsC, h9]
    decide
  have m1 : containsC '=' (k1 ++ '=' :: v1) = true := containsC_of_mem_sep '=' k1 v1
  have m3 : containsC '=' (k3 ++ '=' :: v3) = true := containsC_of_mem_sep '=' k3 v3
  have hs : k1 ++ '=' :: v1 ++ ';' :: k2 ++ ';' :: k3 ++ '=' :: v3
      = (k1 ++ '=' :: v1) ++ ';' :: (k2 ++ ';' :: (k3 ++ '=' :: v3)) := by
    simp only [List.cons_append, List.append_assoc]
  have hsplit : splitC ';' (k1 ++ '=' :: v1 ++ ';' :: k2 ++ ';' :: k3 ++ '=' :: v3)
      = [k1 ++ '=' :: v1, k2, k3 ++ '=' :: v3] := by
    rw [hs, splitC_append_sep _ e1, splitC_append_sep _ h5, splitC_no_sep e3]
  have s1 : splitC '=' (k1 ++ '=' :: v1) = [k1, v1] := by
    rw [splitC_append_sep _ h2, splitC_no_sep h4]
  have s2 : splitC '=' (k2 ++ sEqNan) = [k2, ("nan").data] := by
    rw [show sEqNan = '=' :: ("nan").data from rfl]
    rw [splitC_append_sep _ h6, splitC_no_sep (by decide)]
  have s3 : splitC '=' (k3 ++ '=' :: v3) = [k3, v3] := by
    rw [splitC_append_sep _ h8, splitC_no_sep h10]
  simp only [decode_info, infoOuterDict, padTokens, hsplit, List.map_cons, List.map_nil,
    m1, if_true, h6, Bool.false_eq_true, if_false, m3, s1, s2, s3, dictOfPairs,
    Option.map_some']

theorem C4_outer_decode_witness :
    decode_info ((("DP").data) ++ '=' :: (("5").data) ++ ';' :: (("IN_PON").data)
        ++ ';' :: (("VC").data) ++ '=' :: (("SNP").data)) =
      some [((("DP").data), InfoVal.s (("5").data)),
            ((("IN_PON").data), InfoVal.s (("nan").data)),
            ((("VC").data), InfoVal.s (("SNP").data))] :=
  C4_outer_decode _ _ _ _ _ (by decide) (by decide) (by decide) (by decide) (by decide)
    (by decide) (by decide) (by decide) (by decide) (by decide)

/-- C6: on a header block whose first `##INFO=<ID=CSQ` line has the
well-formed shape `... Format: A|B|C">` (followed by the newline Python
keeps on the line), `csqkeys` extracts exactly `[A, B, C]` in order; and
when no line starts with `##INFO=<ID=CSQ` it returns the empty sequence
(the source's initial `''`). -/
theorem C6_schema_extraction :
    (∀ (pre post : List PyStr) (x ka kb kc : PyStr),
      (∀ l ∈ pre, startsWithP sCsqPfx l = false) →
      startsWithP sCsqPfx (x ++ sFormatMark ++ ((ka ++ '|' :: kb ++ '|' :: kc) ++ sEndMark)) = true →
      findSplit sFormatMark (x ++ sFormatMark) = some (x, []) →
      findSplit sEndMark ((ka ++ '|' :: kb ++ '|' :: kc) ++ sEndMark)
        = some (ka ++ '|' :: kb ++ '|' :: kc, []) →
      containsC '|' ka = false → containsC '|' kb = false → containsC '|' kc = false →
      csqkeysL (pre ++ (x ++ sFormatMark ++ ((ka ++ '|' :: kb ++ '|' :: kc) ++ sEndMark)) :: post)
        = some [ka, kb, kc])
    ∧ (∀ lines : List PyStr, (∀ l ∈ lines, startsWithP sCsqPfx l = false) →
        csqkeysL lines = some []) := by
  constructor
  · intro pre post x ka kb kc hpre hline hfmt hend ha hb hc
    induction pre with
    | nil =>
      simp only [List.nil_append, csqkeysL]
      rw [hline]
      simp only [if_true]
      have hfound := findSplit_extend ((ka ++ '|' :: kb ++ '|' :: kc) ++ sEndMark) hfmt
      rw [hfound]
      have hrm : removeAll sEndMark ((ka ++ '|' :: kb ++ '|' :: kc) ++ sEndMark)
          = ka ++ '|' :: kb ++ '|' :: kc :=
        removeAll_trailing (by decide) hend
      simp only [hrm]
      have hsplit : splitC '|' (ka ++ '|' :: kb ++ '|' :: kc) = [ka, kb, kc] := by
        rw [show ka ++ '|' :: kb ++ '|' :: kc = ka ++ '|' :: (kb ++ '|' :: kc) from by
          simp only [List.cons_append, List.append_assoc]]
        rw [splitC_append_sep _ ha, splitC_append_sep _ hb, splitC_no_sep hc]
      rw [hsplit]
    | cons l ls ih =>
      have hl : startsWithP sCsqPfx l = false := hpre l (List.mem_cons_self l ls)
      simp only [List.cons_append, csqkeysL, hl, Bool.false_eq_true, if_false]
      exact ih (fun q hq => hpre q (List.mem_cons_of_mem _ hq))
  · intro lines hno
    induction lines with
    | nil => rfl
    | cons l ls ih =>
      have hl : startsWithP sCsqPfx l = false := hno l (List.mem_cons_self l ls)
      simp only [csqkeysL, hl, Bool.false_eq_true, if_false]
      exact ih (fun q hq => hno q (List.mem_cons_of_mem _ hq))

theorem C6_schema_extraction_witness :
    csqkeysL
        [("##fileformat=VCFv4.1\n").data,
         (("##INFO=<ID=CSQ,Description=\"Consequence annotations from Ensembl VEP. ").data
           ++ sFormatMark
           ++ (((("Consequence").data) ++ '|' :: (("VARIANT_CLASS").data)
                 ++ '|' :: (("Feature").data)) ++ sEndMark))]
      = some [(("Consequence").data), (("VARIANT_CLASS").data), (("Feature").data)] :=
  C6_schema_extraction.1 [("##fileformat=VCFv4.1\n").data] [] _ _ _ _
    (by decide) (by decide) (by decide) (by decide) (by decide) (by decide) (by decide)

theorem get1_of_len {α : Type} (xs : List α) (h : 2 ≤ xs.length) : ∃ y, xs[1]? = some y := by
  cases xs with
  | nil => simp at h
  | cons a t =>
    cases t with
    | nil => simp at h
    | cons b t2 => exact ⟨b, by simp⟩

/-- C7 (amended): the case-identifier scanner never fails PROVIDED every
line starting with `##SAMPLE=<ID=TUMOR` contains a comma (without one,
`line.split(',')[1]` raises `IndexError` — see the counterexample); it
scans only the leading block of `##` metadata lines, and returns the
empty-string defaults for values never found. -/
theorem C7_case_id_safety :
    (∀ (lines : List PyStr) (idf sid : PyStr),
        (∀ l ∈ lines, startsWithP sSamplePfx l = true → containsC ',' l = true) →
        (case_idL lines idf sid).isSome = true)
    ∧ (∀ (lines : List PyStr) (idf sid : PyStr),
        case_idL lines idf sid
          = case_idL (lines.takeWhile (fun l => startsWithP sHashHash l)) idf sid)
    ∧ (∀ lines : List PyStr,
        (∀ l ∈ lines, startsWithP sIndivPfx l = false ∧ startsWithP sSamplePfx l = false) →
        case_idL lines [] [] = some ([], [])) := by
  refine ⟨?_, ?_, ?_⟩
  · intro lines
    induction lines with
    | nil => intro idf sid h; rfl
    | cons l ls ih =>
      intro idf sid h
      have hls : ∀ q ∈ ls, startsWithP sSamplePfx q = true → containsC ',' q = true :=
        fun q hq => h q (List.mem_cons_of_mem _ hq)
      by_cases hh : startsWithP sHashHash l = true
      · by_cases hi : startsWithP sIndivPfx l = true
        · simp only [case_idL, hh, hi, if_true]
          split
          · simp
          · exact ih _ _ hls
        · by_cases hsmp : startsWithP sSamplePfx l = true
          · have hcom : containsC ',' l = true := h l (List.mem_cons_self l ls) hsmp
            obtain ⟨y, hy⟩ := get1_of_len _ (splitC_length_ge_two hcom)
            simp only [case_idL, hh, hi, hsmp, if_true, Bool.false_eq_true, if_false, hy]
            split
            · simp
            · exact ih _ _ hls
          · simp only [case_idL, hh, hi, hsmp, if_true, Bool.false_eq_true, if_false]
            exact ih _ _ hls
      · simp only [case_idL, hh, Bool.false_eq_true, if_false]
        simp
  · intro lines
    induction lines with
    | nil => intro idf sid; rfl
    | cons l ls ih =>
      intro idf sid
      by_cases hh : startsWithP sHashHash l = true
      · rw [List.takeWhile_cons]
        simp only [hh, if_true]
        by_cases hi : startsWithP sIndivPfx l = true
        · simp only [case_idL, hh, hi, if_true]
          by_cases hc1 : 0 < (removeAll sIndivMark ((splitC ',' l).headD [])).length
              ∧ 0 < sid.length
          · rw [if_pos hc1, if_pos hc1]
          · rw [if_neg hc1, if_neg hc1]
            exact ih _ _
        · by_cases hsmp : startsWithP sSamplePfx l = true
          · simp only [case_idL, hh, hi, hsmp, if_true, Bool.false_eq_true, if_false]
            cases hy : (splitC ',' l)[1]? with
            | none => rfl
            | some y =>
              show (if 0 < idf.length ∧ 0 < (removeAll sNameMark y).length
                    then some (idf, removeAll sNameMark y)
                    else case_idL ls idf (removeAll sNameMark y)) =
                  (if 0 < idf.length ∧ 0 < (removeAll sNameMark y).length
                    then some (idf, removeAll sNameMark y)
                    else case_idL (List.takeWhile (fun q => startsWithP sHashHash q) ls)
                      idf (removeAll sNameMark y))
              by_cases hc2 : 0 < idf.length ∧ 0 < (removeAll sNameMark y).length
              · rw [if_pos hc2, if_pos hc2]
              · rw [if_neg hc2, if_neg hc2]
                exact ih _ _
          · simp only [case_idL, hh, hi, hsmp, if_true, Bool.false_eq_true, if_false]
            exact ih _ _
      · rw [List.takeWhile_cons]
        simp only [hh, Bool.false_eq_true, if_false]
        simp only [case_idL, hh, Bool.false_eq_true, if_false]
  · intro lines
    induction lines with
    | nil => intro h; rfl
    | cons l ls ih =>
      intro h
      have hind := (h l (List.mem_cons_self l ls)).1
      have hsmp := (h l (List.mem_cons_self l ls)).2
      by_cases hh : startsWithP sHashHash l = true
      · simp only [case_idL, hh, hind, hsmp, if_true, Bool.false_eq_true, if_false]
        exact ih (fun q hq => h q (List.mem_cons_of_mem _ hq))
      · simp only [case_idL, hh, Bool.false_eq_true, if_false]

/-- C7, counterexample to "never fails": a `##SAMPLE=<ID=TUMOR` line with
no comma makes `case_id` raise `IndexError`. -/
theorem C7_case_id_counterexample :
    case_id ⟨("f.vcf").data, .plain [("##SAMPLE=<ID=TUMOR>").data]⟩ = none := by decide

theorem C7_case_id_safety_witness :
    (case_idL [("##SAMPLE=<ID=TUMOR,NAME=smp01>\n").data] [] []).isSome = true
    ∧ case_idL [("##x\n").data, ("line\n").data] [] []
        = case_idL ([("##x\n").data, ("line\n").data].takeWhile
            (fun l => startsWithP sHashHash l)) [] []
    ∧ case_idL [("##fileformat=VCFv4.1\n").data] [] [] = some ([], []) :=
  ⟨C7_case_id_safety.1 _ [] [] (by decide),
   C7_case_id_safety.2.1 _ [] [],
   C7_case_id_safety.2.2 _ (by decide)⟩

theorem filterMO_all_false {α : Type} (p : α → Option Bool) :
    ∀ l : List α, (∀ x ∈ l, p x = some false) → filterMO p l = some [] := by
  intro l
  induction l with
  | nil => intro h; rfl
  | cons x xs ih =>
    intro h
    have hx := h x (List.mem_cons_self x xs)
    simp only [filterMO, hx, ih (fun q hq => h q (List.mem_cons_of_mem _ hq))]
    rfl

/-- C5 (amended): when variant filtering comes out empty the two paths
diverge.  MAF: `filter_variants_maf` returns `NaN` (`some none`), a value
distinct from every non-empty sequence, and `read_process_maf` drops the
owning row at its `dropna` — no output row ever carries an empty
`all_effects` list.  VCF: `filter_variants` stores the EMPTY sequence
itself under `CSQ` (never `NaN`), the row survives this stage, and it is
dropped only at the resolution stage when `id_list` is non-empty, because
`find_variants` of the empty sequence returns `NaN`. -/
theorem C5_empty_filter_handling :
    (∀ (l : List Rec) (v : PyStr),
        (∀ r ∈ l, (pyLookup sConsequenceAE r).map (fun c => occursB v c) = some false) →
        filter_variants_maf l v = some none)
    ∧ (∀ (lines : List PyStr) (v c vc : PyStr) (ids : List PyStr) (rows : List MRow),
        mafMain lines v c vc ids = some (.plain rows) →
        ∀ r ∈ rows, 0 < r.effects.length)
    ∧ (∀ (dict_a : InfoDict) (v vc : PyStr) (l : List Rec) (ids : List PyStr),
        pyLookup sCSQ dict_a = some (.recs l) →
        filterMO (vcfKeep v vc) l = some [] →
        filter_variants dict_a v vc = some (dictUpdate dict_a sCSQ (.recs []))
          ∧ find_variants (dictUpdate dict_a sCSQ (.recs [])) ids = some none) := by
  refine ⟨?_, ?_, ?_⟩
  · intro l v h
    unfold filter_variants_maf
    rw [filterMO_all_false _ l h]
    rfl
  · intro lines v c vc ids rows h r hr
    unfold mafMain at h
    rw [Option.bind_eq_some] at h
    obtain ⟨tbl, htbl, h⟩ := h
    rw [Option.bind_eq_some] at h
    obtain ⟨rows2, hrows2, h⟩ := h
    by_cases hids : 0 < ids.length
    · rw [if_pos hids] at h
      simp only [Option.map_eq_some'] at h
      obtain ⟨rs, _, habs⟩ := h
      cases habs
    · rw [if_neg hids] at h
      have hrows : rows = rows2.filterMap id := by
        have := h
        injection this with h2
        injection h2 with h3
        exact h3.symm
      subst hrows
      obtain ⟨orow, horow, hid⟩ := List.mem_filterMap.mp hr
      have horow2 : orow = some r := hid
      subst horow2
      obtain ⟨row, hrow, hg⟩ := mapMO_mem _ tbl.rows rows2 hrows2 (some r) horow
      unfold maf_filter_row at hg
      rw [Option.bind_eq_some] at hg
      obtain ⟨raw, hraw, hg⟩ := hg
      simp only [Option.map_eq_some'] at hg
      obtain ⟨fo, hfo, hmap⟩ := hg
      cases fo with
      | none => simp at hmap
      | some leff =>
        simp only [Option.map_some', Option.some.injEq] at hmap
        unfold filter_variants_maf at hfo
        simp only [Option.map_eq_some'] at hfo
        obtain ⟨l2, hl2, hcase⟩ := hfo
        by_cases hlen : 0 < l2.length
        · rw [if_pos hlen] at hcase
          injection hcase with hc2
          obtain ⟨a, ha, hmk⟩ := hmap
          have hre : r.effects = l2 := by
            rw [← hmk]
            show a = l2
            rw [hc2, ← ha]
          rw [hre]
          exact hlen
        · rw [if_neg hlen] at hcase
          cases hcase
  · intro dict_a v vc l ids hcsq hfil
    constructor
    · unfold filter_variants
      rw [hcsq]
      show (filterMO (vcfKeep v vc) l).map
            (fun l2 => dictUpdate dict_a sCSQ (InfoVal.recs l2))
          = some (dictUpdate dict_a sCSQ (InfoVal.recs []))
      rw [hfil]
      rfl
    · unfold find_variants
      rw [pyLookup_dictUpdate]
      rfl

def c5Lines : List PyStr :=
  [("##INFO=<ID=CSQ,Description=\"x. Format: Consequence|VARIANT_CLASS|Feature\">").data,
   ("FILTER\tINFO").data,
   ("PASS\tCSQ=missense_variant|SNP|T1").data]

/-- C5, counterexample to the claim as stated: in the VCF path, when
filtering leaves no qualifying sub-record the `CSQ` field holds the EMPTY
sequence (not the absent `NaN` marker), and with an empty `id_list` the
owning row is NOT dropped — it appears in the pass-through output. -/
theorem C5_empty_filter_counterexample :
    vcfMain c5Lines (("missense_variant").data) (("insertion").data) [] false
      = some (.table (.plain
          [⟨[(sFILTER, sPASS)], [(sCSQ, InfoVal.recs [])]⟩])) := by
  decide

def c5wRows : List MRow :=
  [⟨[], [[(("Symbol_all_effects").data, ("a").data), (sConsequenceAE, ("m").data)]]⟩]

theorem C5_empty_filter_witness :
    filter_variants_maf [[(sConsequenceAE, ("synonymous_variant").data)]]
        (("missense_variant").data) = some none
    ∧ (∀ r ∈ c5wRows, 0 < r.effects.length)
    ∧ (filter_variants
          [(sCSQ, InfoVal.recs [[(sConsequence, ("m").data), (sVariantClass, ("SNP").data)]])]
          (("m").data) (("insertion").data)
        = some (dictUpdate
            [(sCSQ, InfoVal.recs [[(sConsequence, ("m").data), (sVariantClass, ("SNP").data)]])]
            sCSQ (.recs []))
        ∧ find_variants (dictUpdate
            [(sCSQ, InfoVal.recs [[(sConsequence, ("m").data), (sVariantClass, ("SNP").data)]])]
            sCSQ (.recs [])) [("T1").data] = some none) :=
  ⟨C5_empty_filter_handling.1 _ _ (by decide),
   C5_empty_filter_handling.2.1 [("#version 1").data, ("all_effects").data, ("a,m").data]
     (("x").data) (("m").data) (("SNP").data) [] c5wRows (by decide),
   C5_empty_filter_handling.2.2
     [(sCSQ, InfoVal.recs [[(sConsequence, ("m").data), (sVariantClass, ("SNP").data)]])]
     (("m").data) (("insertion").data)
     [[(sConsequence, ("m").data), (sVariantClass, ("SNP").data)]]
     [("T1").data] (by decide) (by decide)⟩

/-- C8: when `id_list` is empty both pipelines skip resolution and
expansion entirely.  VCF: the output is the `plain` (non-extended) table,
with exactly one output row per variant-filtered input row (none dropped,
no `Variant_INFO`/flattened columns), each keeping its non-INFO columns
unchanged and holding the decoded-and-filtered (unresolved) dictionary in
the `INFO` column.  MAF: the output is exactly the `plain` table of the
variant-filtered rows (the `dropna` survivors), with `all_effects` in its
decoded-and-filtered form and nothing resolved or flattened. -/
theorem C8_empty_idlist_passthrough :
    (∀ (lines : List PyStr) (variant variant_class : PyStr) (rcid : Bool) (res : VcfResult),
        vcfMain lines variant variant_class [] rcid = some res →
        ∃ (ck : List PyStr) (tbl : Table) (rows1 : List (List PyStr)) (rows2 : List VRow),
          csqkeysL (withNL lines) = some ck
          ∧ parseTable lines (rows2skipL (withNL lines)) = some tbl
          ∧ filterMO (vcf_row_pred (renameHeader tbl.header) variant) tbl.rows = some rows1
          ∧ res.out = VcfOut.plain rows2
          ∧ rows2.length = rows1.length
          ∧ (∀ (i : Nat) (hi : i < rows1.length) (hj : i < rows2.length),
              (rows2.get ⟨i, hj⟩).cols
                  = nonInfoCols (renameHeader tbl.header) (rows1.get ⟨i, hi⟩)
              ∧ ∃ raw d,
                  getCell (renameHeader tbl.header) (rows1.get ⟨i, hi⟩) sINFO = some raw
                  ∧ vcf_decode_info ck variant variant_class raw = some d
                  ∧ (rows2.get ⟨i, hj⟩).info = d))
    ∧ (∀ (lines : List PyStr) (variant consequence variant_class : PyStr) (res : MafOut),
        mafMain lines variant consequence variant_class [] = some res →
        ∃ (tbl : Table) (rows2 : List (Option MRow)),
          parseTable (lines.filter (fun l => !startsWithP sHash l)) 0 = some tbl
          ∧ mapMO (maf_filter_row tbl.header consequence) tbl.rows = some rows2
          ∧ res = MafOut.plain (rows2.filterMap id)) := by
  constructor
  · intro lines variant variant_class rcid res h
    unfold vcfMain at h
    rw [Option.bind_eq_some] at h
    obtain ⟨ck, hck, h⟩ := h
    rw [Option.bind_eq_some] at h
    obtain ⟨tbl, htbl, h⟩ := h
    rw [Option.bind_eq_some] at h
    obtain ⟨rows1, hrows1, h⟩ := h
    rw [Option.bind_eq_some] at h
    obtain ⟨rows2, hrows2, h⟩ := h
    rw [if_neg (by simp)] at h
    rw [Option.some_bind] at h
    have hout : res.out = VcfOut.plain rows2 := by
      cases rcid with
      | true =>
        simp only [if_true] at h
        simp only [Option.map_eq_some'] at h
        obtain ⟨ids2, _, hres⟩ := h
        rw [← hres]
        rfl
      | false =>
        simp only [Bool.false_eq_true, if_false, Option.some.injEq] at h
        rw [← h]
        rfl
    refine ⟨ck, tbl, rows1, rows2, hck, htbl, hrows1, hout,
      mapMO_length _ rows1 rows2 hrows2, ?_⟩
    intro i hi hj
    have hrow := mapMO_get _ rows1 rows2 hrows2 i hi hj
    unfold vcf_decode_row at hrow
    rw [Option.bind_eq_some] at hrow
    obtain ⟨raw, hraw, hrow⟩ := hrow
    simp only [Option.map_eq_some'] at hrow
    obtain ⟨d, hd, hmk⟩ := hrow
    constructor
    · rw [← hmk]
    · exact ⟨raw, d, hraw, hd, by rw [← hmk]⟩
  · intro lines variant consequence variant_class res h
    unfold mafMain at h
    rw [Option.bind_eq_some] at h
    obtain ⟨tbl, htbl, h⟩ := h
    rw [Option.bind_eq_some] at h
    obtain ⟨rows2, hrows2, h⟩ := h
    rw [if_neg (by simp)] at h
    injection h with h2
    exact ⟨tbl, rows2, htbl, hrows2, h2.symm⟩

def c8vLines : List PyStr :=
  [("##INFO=<ID=CSQ,Description=\"x. Format: Consequence|VARIANT_CLASS|Feature\">").data,
   ("FILTER\tINFO").data,
   ("PASS\tCSQ=missense_variant|SNP|T1").data]

def c8mLines : List PyStr :=
  [("#version 1").data, ("all_effects").data, ("a,missense_variant").data]

theorem C8_empty_idlist_witness :
    (∃ (ck : List PyStr) (tbl : Table) (rows1 : List (List PyStr)) (rows2 : List VRow),
        csqkeysL (withNL c8vLines) = some ck
        ∧ parseTable c8vLines (rows2skipL (withNL c8vLines)) = some tbl
        ∧ filterMO (vcf_row_pred (renameHeader tbl.header) (("missense_variant").data))
            tbl.rows = some rows1
        ∧ (VcfResult.table (VcfOut.plain
              [⟨[(sFILTER, sPASS)],
                [(sCSQ, InfoVal.recs
                    [[(sConsequence, ("missense_variant").data),
                      (sVariantClass, ("SNP").data), (sFeature, ("T1").data)]])]⟩])).out
            = VcfOut.plain rows2
        ∧ rows2.length = rows1.length
        ∧ (∀ (i : Nat) (hi : i < rows1.length) (hj : i < rows2.length),
            (rows2.get ⟨i, hj⟩).cols
                = nonInfoCols (renameHeader tbl.header) (rows1.get ⟨i, hi⟩)
            ∧ ∃ raw d,
                getCell (renameHeader tbl.header) (rows1.get ⟨i, hi⟩) sINFO = some raw
                ∧ vcf_decode_info ck (("missense_variant").data) (("SNP").data) raw = some d
                ∧ (rows2.get ⟨i, hj⟩).info = d))
    ∧ (∃ (tbl : Table) (rows2 : List (Option MRow)),
        parseTable (c8mLines.filter (fun l => !startsWithP sHash l)) 0 = some tbl
        ∧ mapMO (maf_filter_row tbl.header (("missense_variant").data)) tbl.rows = some rows2
        ∧ MafOut.plain
            [⟨[], [[(("Symbol_all_effects").data, ("a").data),
                    (sConsequenceAE, ("missense_variant").data)]]⟩]
            = MafOut.plain (rows2.filterMap id)) :=
  ⟨C8_empty_idlist_passthrough.1 c8vLines (("missense_variant").data) (("SNP").data) false
      (VcfResult.table (VcfOut.plain
        [⟨[(sFILTER, sPASS)],
          [(sCSQ, InfoVal.recs
              [[(sConsequence, ("missense_variant").data),
                (sVariantClass, ("SNP").data), (sFeature, ("T1").data)]])]⟩]))
      (by decide),
   C8_empty_idlist_passthrough.2 c8mLines (("x").data) (("missense_variant").data)
      (("SNP").data)
      (MafOut.plain
        [⟨[], [[(("Symbol_all_effects").data, ("a").data),
                (sConsequenceAE, ("missense_variant").data)]]⟩])
      (by decide)⟩
